import Mathlib

/-!
Verification of the roadmap projection engine of `jiragitfluence`
(package `internal/generator`, plus the data model in `pkg/models`).

The Go code is embedded shallowly:

* `GoTime` models `time.Time` at day granularity (the roadmap engine only
  ever inspects year/month/day and steps by whole days, months or years;
  time-of-day never influences any value the claims are about).  A value is
  kept in canonical civil form (month in 1..12, day in 1..31); the
  constructor `mkDate` models Go's normalizing `time.Date` constructor, with
  the month-carry/borrow formulation of the same day-overflow normalization
  that Go performs through absolute-day arithmetic.
* Integer division written with `/` on `Int` is Euclidean division; every
  division performed by the Go code happens on non-negative operands, where
  Go's truncated division agrees with it.
* Go maps (`map[string][]RoadmapItem`, `map[string]Milestone`, …) are
  modelled as association lists keyed in first-insertion order; Go's map
  iteration order is unspecified, so insertion order is one admissible
  refinement of it.
* Rendered Confluence markup is abstracted to the list of structural events
  (`RenderEvent`) emitted by the writers: one event per header row, item
  row, or section; the byte-level HTML around those rows carries no
  information any claim is about.
-/

/-- Model of Go `time.Time` at day granularity: a civil date.
Values produced by the engine are canonical (month 1..12, day 1..31). -/
structure GoTime where
  year : Int
  month : Int
  day : Int
deriving DecidableEq, Repr

/-- Number of days in a month (Go `daysIn`).  Months outside 1..12 cannot
occur on canonical values; the default keeps the function total. -/
def daysInMonth (y m : Int) : Int :=
  if m = 2 then
    if y % 4 = 0 && (y % 100 ≠ 0 || y % 400 = 0) then 29 else 28
  else if m = 4 || m = 6 || m = 9 || m = 11 then 30
  else 31

/-- Month normalization of Go `time.Date`: fold a month count into the year
so that the month lands in 1..12 (Go uses floor division/modulus here). -/
def normYM (y m : Int) : Int × Int :=
  ((y + (m - 1) / 12), ((m - 1) % 12 + 1))

/-- Day-overflow carry loop: while the day exceeds the month length, move to
the next month.  Together with `fixDayDown` this is the month-stepped
formulation of the absolute-day normalization in Go `time.Date`. -/
def fixDayUp (y m d : Int) : GoTime :=
  if h : d ≤ daysInMonth y m then ⟨y, m, d⟩
  else
    fixDayUp (normYM y (m + 1)).1 (normYM y (m + 1)).2 (d - daysInMonth y m)
termination_by d.toNat
decreasing_by
  have h28 : 28 ≤ daysInMonth y m := by
    unfold daysInMonth; split <;> split <;> omega
  omega

/-- Day-underflow borrow loop: while the day is below 1, borrow from the
previous month. -/
def fixDayDown (y m d : Int) : GoTime :=
  if h : 1 ≤ d then ⟨y, m, d⟩
  else
    fixDayDown (normYM y (m - 1)).1 (normYM y (m - 1)).2
      (d + daysInMonth (normYM y (m - 1)).1 (normYM y (m - 1)).2)
termination_by (1 - d).toNat
decreasing_by
  have h28 : 28 ≤ daysInMonth (normYM y (m - 1)).1 (normYM y (m - 1)).2 := by
    unfold daysInMonth; split <;> split <;> omega
  omega

/-- Model of Go `time.Date(y, m, d, 0, 0, 0, 0, loc)`: normalize the month
into the year, then resolve day overflow/underflow. -/
def mkDate (y m d : Int) : GoTime :=
  if 1 ≤ d then fixDayUp (normYM y m).1 (normYM y m).2 d
  else fixDayDown (normYM y m).1 (normYM y m).2 d

/-- Model of Go `Time.AddDate(years, months, days)`. -/
def addDate (t : GoTime) (years months days : Int) : GoTime :=
  mkDate (t.year + years) (t.month + months) (t.day + days)

/-- Model of Go `Time.Before` on canonical dates: lexicographic order. -/
def before (t u : GoTime) : Bool :=
  t.year < u.year ||
    (t.year = u.year && (t.month < u.month ||
      (t.month = u.month && t.day < u.day)))

/-- Go's zero `time.Time` is January 1 of year 1; `Time.IsZero` tests it. -/
def zeroTime : GoTime := ⟨1, 1, 1⟩

/-- Model of `Time.IsZero` (at day granularity). -/
def isZero (t : GoTime) : Bool := t = zeroTime

/-- Canonicity predicate (loose day bound): what `mkDate` guarantees. -/
def CanonB (t : GoTime) : Bool :=
  1 ≤ t.month && t.month ≤ 12 && 1 ≤ t.day && t.day ≤ 31

theorem normYM_bounds (y m : Int) :
    1 ≤ (normYM y m).2 ∧ (normYM y m).2 ≤ 12 := by
  unfold normYM; dsimp only; omega

theorem daysInMonth_bounds (y m : Int) :
    28 ≤ daysInMonth y m ∧ daysInMonth y m ≤ 31 := by
  unfold daysInMonth; split <;> split <;> omega

theorem fixDayUp_canon (y m d : Int) (hm1 : 1 ≤ m) (hm2 : m ≤ 12)
    (hd : 1 ≤ d) : CanonB (fixDayUp y m d) = true := by
  induction y, m, d using fixDayUp.induct with
  | case1 y m d h =>
    rw [fixDayUp, dif_pos h]
    have := daysInMonth_bounds y m
    simp only [CanonB]; simp; omega
  | case2 y m d h ih =>
    rw [fixDayUp, dif_neg h]
    have hb := normYM_bounds y (m + 1)
    have := daysInMonth_bounds y m
    exact ih hb.1 hb.2 (by omega)

theorem fixDayDown_canon (y m d : Int) (hm1 : 1 ≤ m) (hm2 : m ≤ 12)
    (hd : d ≤ 31) : CanonB (fixDayDown y m d) = true := by
  induction y, m, d using fixDayDown.induct with
  | case1 y m d h =>
    rw [fixDayDown, dif_pos h]
    simp only [CanonB]; simp; omega
  | case2 y m d h ih =>
    rw [fixDayDown, dif_neg h]
    have hb := normYM_bounds y (m - 1)
    have := daysInMonth_bounds (normYM y (m - 1)).1 (normYM y (m - 1)).2
    exact ih hb.1 hb.2 (by omega)

theorem mkDate_canon (y m d : Int) : CanonB (mkDate y m d) = true := by
  unfold mkDate
  have hb := normYM_bounds y m
  split
  · exact fixDayUp_canon _ _ _ hb.1 hb.2 (by omega)
  · exact fixDayDown_canon _ _ _ hb.1 hb.2 (by omega)

/-- Month index used in termination measures: months since year 0. -/
def monthIndex (t : GoTime) : Int := 12 * t.year + t.month

theorem fixDayUp_monthIndex (y m d : Int) :
    12 * y + m ≤ monthIndex (fixDayUp y m d) := by
  induction y, m, d using fixDayUp.induct with
  | case1 y m d h =>
    rw [fixDayUp, dif_pos h]; simp [monthIndex]
  | case2 y m d h ih =>
    rw [fixDayUp, dif_neg h]
    refine le_trans ?_ ih
    unfold normYM; dsimp only; omega

theorem addMonth_monthIndex (t : GoTime) (h : CanonB t = true) :
    monthIndex t < monthIndex (addDate t 0 1 0) := by
  simp only [CanonB, Bool.and_eq_true, decide_eq_true_eq] at h
  unfold addDate mkDate
  have hup := fixDayUp_monthIndex (normYM (t.year + 0) (t.month + 1)).1
    (normYM (t.year + 0) (t.month + 1)).2 (t.day + 0)
  rw [if_pos (by omega)]
  refine lt_of_lt_of_le ?_ hup
  unfold normYM; dsimp only; unfold monthIndex; omega

theorem addDate_canon (t : GoTime) (a b c : Int) :
    CanonB (addDate t a b c) = true := mkDate_canon _ _ _

/-- Model of `deriveRoadmapStatus` (generator/roadmap.go): map a Jira issue
status onto a canonical planning status. -/
def deriveRoadmapStatus (status : String) : String :=
  if status = "To Do" || status = "Open" || status = "Backlog" then "Planned"
  else if status = "In Progress" || status = "In Review" then "In Progress"
  else if status = "Blocked" || status = "Impediment" then "Blocked"
  else if status = "Done" || status = "Closed" || status = "Resolved" then "Completed"
  else "Planned"

/-- Model of `deriveRoadmapStatusFromGitHub`: map a GitHub state onto a
canonical planning status. -/
def deriveRoadmapStatusFromGitHub (state : String) : String :=
  if state = "open" then "In Progress"
  else if state = "closed" then "Completed"
  else "Planned"

/-- The `statusPriority` lookup table inside `aggregateStatus`; a Go map
lookup yields 0 for a key that is absent. -/
def statusPriority (s : String) : Int :=
  if s = "Blocked" then 5
  else if s = "At Risk" then 4
  else if s = "In Progress" then 3
  else if s = "Planned" then 2
  else if s = "Completed" then 1
  else 0

/-- Model of `aggregateStatus`: keep whichever status has higher priority,
preferring the current one on ties. -/
def aggregateStatus (currentStatus newStatus : String) : String :=
  if statusPriority currentStatus < statusPriority newStatus then newStatus
  else currentStatus

/-- The five canonical statuses. -/
def canonicalStatuses : List String :=
  ["Planned", "In Progress", "At Risk", "Blocked", "Completed"]

/-- Model of `models.JiraIssue`, restricted to the fields the roadmap engine
reads (identity/markup-only fields such as URL or Assignee are omitted). -/
structure JiraIssue where
  Key : String
  IssueType : String
  Summary : String
  Status : String
  Team : String
  EpicLink : String
  CreatedDate : GoTime
  UpdatedDate : GoTime
  PlannedStartDate : Option GoTime
  PlannedEndDate : Option GoTime
  Theme : String
  Initiative : String
  RoadmapStatus : String
  Milestone : String
  Quarter : String
deriving DecidableEq, Repr

/-- Model of `models.GitHubIssue`, restricted to the fields the roadmap
engine reads. -/
structure GitHubIssue where
  Title : String
  State : String
  Labels : List String
  CreatedDate : GoTime
  UpdatedDate : GoTime
  PlannedStartDate : Option GoTime
  PlannedEndDate : Option GoTime
  Theme : String
  Initiative : String
  RoadmapStatus : String
  Milestone : String
  Quarter : String
deriving DecidableEq, Repr

/-- Model of `models.AggregatedData` (pull requests are never consumed by
the roadmap engine and are omitted). -/
structure AggregatedData where
  jiraIssues : List JiraIssue
  githubIssues : List GitHubIssue
deriving DecidableEq, Repr

/-- Model of `generator.RoadmapItem`.  The Go struct holds pointers to the
source issue; exactly one of the two payloads is set, matching `Type`. -/
structure RoadmapItem where
  itemType : String
  jira : Option JiraIssue
  github : Option GitHubIssue
  Status : String
  StartDate : Option GoTime
  EndDate : Option GoTime
deriving DecidableEq, Repr

/-- Model of `generator.Milestone`. -/
structure Milestone where
  Name : String
  TargetDate : GoTime
  Status : String
  Items : List RoadmapItem
deriving DecidableEq, Repr

/-- Model of `generator.Initiative` (`extractThemes` never assigns the two
quarter indices, so they keep Go's zero value). -/
structure Initiative where
  Name : String
  Status : String
  StartQuarter : Int
  EndQuarter : Int
deriving DecidableEq, Repr

/-- Model of `generator.Theme`. -/
structure Theme where
  Name : String
  Initiatives : List Initiative
deriving DecidableEq, Repr

/-- Normalization of one Jira issue into a `RoadmapItem`, as performed
inline at the top of `groupRoadmapItems` (and duplicated verbatim in
`generateEpicGanttView`): fall back to created date for a missing planned
start; for a missing planned end use the update date when the issue status
is Done/Closed/Resolved, else start + 14 days; derive the roadmap status
from the issue status when none is set. -/
def jiraToItem (issue : JiraIssue) : RoadmapItem :=
  let startDate :=
    match issue.PlannedStartDate with
    | some s => s
    | none => issue.CreatedDate
  let endDate :=
    match issue.PlannedEndDate with
    | some e => e
    | none =>
      if issue.Status = "Done" || issue.Status = "Closed" ||
          issue.Status = "Resolved" then issue.UpdatedDate
      else addDate startDate 0 0 14
  let st :=
    if issue.RoadmapStatus = "" then deriveRoadmapStatus issue.Status
    else issue.RoadmapStatus
  ⟨"jira", some issue, none, st, some startDate, some endDate⟩

/-- Normalization of one GitHub issue into a `RoadmapItem` (same block of
`groupRoadmapItems`, GitHub branch). -/
def githubToItem (issue : GitHubIssue) : RoadmapItem :=
  let startDate :=
    match issue.PlannedStartDate with
    | some s => s
    | none => issue.CreatedDate
  let endDate :=
    match issue.PlannedEndDate with
    | some e => e
    | none =>
      if issue.State = "closed" then issue.UpdatedDate
      else addDate startDate 0 0 14
  let st :=
    if issue.RoadmapStatus = "" then deriveRoadmapStatusFromGitHub issue.State
    else issue.RoadmapStatus
  ⟨"github-issue", none, some issue, st, some startDate, some endDate⟩

/-- The `allItems` slice built by `groupRoadmapItems`: all Jira issues in
order, then all GitHub issues in order (PRs are excluded by the code). -/
def allRoadmapItems (data : AggregatedData) : List RoadmapItem :=
  data.jiraIssues.map jiraToItem ++ data.githubIssues.map githubToItem

/-- Append an item to the bucket of key `k`, creating the bucket at the end
on first use: the association-list model of `result[k] = append(result[k], it)`
on a Go map. -/
def insertGroup (m : List (String × List RoadmapItem)) (k : String)
    (it : RoadmapItem) : List (String × List RoadmapItem) :=
  match m with
  | [] => [(k, [it])]
  | (k', v) :: rest =>
    if k' = k then (k', v ++ [it]) :: rest else (k', v) :: insertGroup rest k it

/-- Grouping key of the `"epic"` branch of `groupRoadmapItems`. -/
def groupKeyEpic (item : RoadmapItem) : String :=
  if item.itemType = "jira" then
    match item.jira with
    | some ji => if ji.EpicLink ≠ "" then ji.EpicLink else "No Epic"
    | none => "No Epic"
  else "No Epic"

/-- Grouping key of the `"theme"` branch. -/
def groupKeyTheme (item : RoadmapItem) : String :=
  if item.itemType = "jira" then
    match item.jira with
    | some ji =>
      if ji.Theme ≠ "" then ji.Theme
      else if ji.IssueType ≠ "" then ji.IssueType
      else "No Theme"
    | none => "No Theme"
  else if item.itemType = "github-issue" then
    match item.github with
    | some gi =>
      if gi.Theme ≠ "" then gi.Theme
      else
        match gi.Labels with
        | l :: _ => l
        | [] => "No Theme"
    | none => "No Theme"
  else "No Theme"

/-- Grouping key of the `"team"` branch. -/
def groupKeyTeam (item : RoadmapItem) : String :=
  if item.itemType = "jira" then
    match item.jira with
    | some ji => if ji.Team ≠ "" then ji.Team else "No Team"
    | none => "No Team"
  else "No Team"

/-- Grouping key of the `"quarter"` branch: an explicit quarter wins, else
the label is derived from the start date; "No Quarter" when no start date. -/
def groupKeyQuarter (item : RoadmapItem) : String :=
  match item.StartDate with
  | none => "No Quarter"
  | some sd =>
    let derived :=
      "Q" ++ toString ((sd.month - 1) / 3 + 1) ++ " " ++ toString sd.year
    if item.itemType = "jira" then
      match item.jira with
      | some ji => if ji.Quarter ≠ "" then ji.Quarter else derived
      | none => "No Quarter"
    else if item.itemType = "github-issue" then
      match item.github with
      | some gi => if gi.Quarter ≠ "" then gi.Quarter else derived
      | none => "No Quarter"
    else "No Quarter"

/-- Model of `groupRoadmapItems`: normalize both issue collections, then
partition by the selected grouping key; an unrecognized key produces the
single "All Items" group. -/
def groupRoadmapItems (data : AggregatedData) (grouping : String) :
    List (String × List RoadmapItem) :=
  let allItems := allRoadmapItems data
  if grouping = "epic" then
    allItems.foldl (fun acc it => insertGroup acc (groupKeyEpic it) it) []
  else if grouping = "theme" then
    allItems.foldl (fun acc it => insertGroup acc (groupKeyTheme it) it) []
  else if grouping = "team" then
    allItems.foldl (fun acc it => insertGroup acc (groupKeyTeam it) it) []
  else if grouping = "quarter" then
    allItems.foldl (fun acc it => insertGroup acc (groupKeyQuarter it) it) []
  else
    [("All Items", allItems)]

/-- The `RoadmapItem` value built inside `extractMilestones` (note: the Go
code sets no start/end dates on these items). -/
def jiraToMsItem (issue : JiraIssue) : RoadmapItem :=
  let st :=
    if issue.RoadmapStatus = "" then deriveRoadmapStatus issue.Status
    else issue.RoadmapStatus
  ⟨"jira", some issue, none, st, none, none⟩

/-- GitHub counterpart of `jiraToMsItem`. -/
def githubToMsItem (issue : GitHubIssue) : RoadmapItem :=
  let st :=
    if issue.RoadmapStatus = "" then deriveRoadmapStatusFromGitHub issue.State
    else issue.RoadmapStatus
  ⟨"github-issue", none, some issue, st, none, none⟩

/-- Whether the milestone map already has an entry for `k`. -/
def hasMsKey (lst : List (String × Milestone)) (k : String) : Bool :=
  lst.any (fun p => p.1 = k)

/-- Append `item` to milestone `k` and fold its status into the milestone
status (the body of the per-issue update in `extractMilestones`). -/
def msAppend (lst : List (String × Milestone)) (k : String)
    (item : RoadmapItem) : List (String × Milestone) :=
  match lst with
  | [] => []
  | (k', ms) :: rest =>
    if k' = k then
      (k', { ms with
              Items := ms.Items ++ [item],
              Status := aggregateStatus ms.Status item.Status }) :: rest
    else (k', ms) :: msAppend rest k item

/-- One loop iteration of `extractMilestones` for an issue carrying
milestone name `name`, planned end `target` and normalized item `item`:
create the entry (target date, status "Planned", no items) if absent, then
append the item and aggregate the status. -/
def msStep (lst : List (String × Milestone)) (name : String) (target : GoTime)
    (item : RoadmapItem) : List (String × Milestone) :=
  let lst' :=
    if hasMsKey lst name then lst
    else lst ++ [(name, ⟨name, target, "Planned", []⟩)]
  msAppend lst' name item

/-- Model of `extractMilestones`: fold the Jira issues, then the GitHub
issues, keeping only issues with a milestone name and an explicit planned
end date. -/
def extractMilestones (data : AggregatedData) : List Milestone :=
  let m1 := data.jiraIssues.foldl
    (fun acc issue =>
      match issue.PlannedEndDate with
      | some pend =>
        if issue.Milestone ≠ "" then
          msStep acc issue.Milestone pend (jiraToMsItem issue)
        else acc
      | none => acc) []
  let m2 := data.githubIssues.foldl
    (fun acc issue =>
      match issue.PlannedEndDate with
      | some pend =>
        if issue.Milestone ≠ "" then
          msStep acc issue.Milestone pend (githubToMsItem issue)
        else acc
      | none => acc) m1
  m2.map Prod.snd

/-- One digit character, as Go's `string(rune('0' + v))`. -/
def digitChar (v : Int) : Char := Char.ofNat (48 + v).toNat

/-- The quarter label that `getItemQuarters` builds by rune arithmetic:
`"Q<q> <4-digit year>"` (Go divides with truncation; for the years ≥ 1000
that occur this agrees with Euclidean division). -/
def runeQuarterLabel (t : GoTime) : String :=
  let q := (t.month - 1) / 3 + 1
  let y := t.year
  String.mk ['Q', digitChar q, ' ', digitChar (y / 1000),
    digitChar ((y / 100) % 10), digitChar ((y / 10) % 10), digitChar (y % 10)]

/-- First index of `s` in `qs` starting at offset `i`, or -1: the
first-match scan of `getItemQuarters` (its single loop records the first
occurrence of each of the two labels independently). -/
def findFrom (qs : List String) (s : String) (i : Int) : Int :=
  match qs with
  | [] => -1
  | q :: rest => if q = s then i else findFrom rest s (i + 1)

/-- Model of `getItemQuarters`: nil start or end date yields (0, 0);
otherwise look up the first occurrence of the start and end quarter labels,
replacing a missing start by 0 and a missing end by the last index. -/
def getItemQuarters (item : RoadmapItem) (quarters : List String) :
    Int × Int :=
  match item.StartDate, item.EndDate with
  | some sd, some ed =>
    let startQStr := runeQuarterLabel sd
    let endQStr := runeQuarterLabel ed
    let startQuarter := findFrom quarters startQStr 0
    let endQuarter := findFrom quarters endQStr 0
    ((if startQuarter = -1 then 0 else startQuarter),
      (if endQuarter = -1 then (quarters.length : Int) - 1 else endQuarter))
  | _, _ => (0, 0)

/-- The four timeline cell styles of the render loops. -/
inductive CellMark where
  | single
  | startM
  | endM
  | mid
deriving DecidableEq, Repr

/-- Cell classification of the shared render loop (timeline and epic-Gantt
views): a quarter column `i` inside `[s, e]` gets a single/start/end/middle
marker; columns outside get an empty cell (`none`). -/
def cellMarker (i s e : Int) : Option CellMark :=
  if s ≤ i ∧ i ≤ e then
    some (if i = s ∧ i = e then .single
      else if i = s then .startM
      else if i = e then .endM
      else .mid)
  else none

/-- Character-list prefix test (helper for the substring test below). -/
def listHasPfx : List Char → List Char → Bool
  | _, [] => true
  | [], _ :: _ => false
  | a :: as, b :: bs => a = b && listHasPfx as bs

/-- Substring search on character lists. -/
def containsSub (l pat : List Char) : Bool :=
  match l with
  | [] => listHasPfx [] pat
  | c :: t => listHasPfx (c :: t) pat || containsSub t pat

/-- Model of Go `strings.Contains`. -/
def strContains (s sub : String) : Bool := containsSub s.data sub.data

/-- Whitespace test of Go `strings.TrimSpace` (the inputs in play are
ASCII). -/
def isSpaceGo (c : Char) : Bool :=
  c = ' ' || c = '\t' || c = '\n' || c = '\r'

/-- Model of Go `strings.TrimSpace`. -/
def goTrim (s : String) : String :=
  String.mk (((s.data.dropWhile isSpaceGo).reverse.dropWhile isSpaceGo).reverse)

/-- Model of Go `strings.HasSuffix`. -/
def goEndsWith (s sfx : String) : Bool :=
  listHasPfx s.data.reverse sfx.data.reverse

/-- Model of Go `strings.HasPrefix`. -/
def goStartsWith (s pre : String) : Bool := listHasPfx s.data pre.data

/-- Model of Go `strings.TrimPrefix`: drop `pre` when it is a prefix,
otherwise return the string unchanged. -/
def trimPfx (s pre : String) : String :=
  if goStartsWith s pre then String.mk (s.data.drop pre.data.length) else s

/-- Split a character list on a separator character (the accumulator holds
the current field). -/
def splitOnChar (sep : Char) : List Char → List Char → List (List Char)
  | [], cur => [cur]
  | c :: rest, cur =>
    if c = sep then cur :: splitOnChar sep rest []
    else splitOnChar sep rest (cur ++ [c])

/-- Model of Go `strings.Split` with a one-character separator (the only
form the engine uses: splitting a timeframe on `"-"`). -/
def goSplit (s : String) (sep : Char) : List String :=
  (splitOnChar sep s.data []).map String.mk

/-- Model of `fmt.Sscanf(s, "%d", &v)` with `v` initialized to 0: skip
leading spaces, read an optional sign and a digit run; on no digits the
variable keeps its zero value. -/
def parseLeadingInt (s : String) : Int :=
  let cs := s.data.dropWhile (fun c => c = ' ')
  let p : Int × List Char :=
    match cs with
    | '-' :: t => (-1, t)
    | '+' :: t => (1, t)
    | _ => (1, cs)
  let ds := p.2.takeWhile Char.isDigit
  if ds.isEmpty then 0
  else p.1 * ds.foldl (fun acc c => acc * 10 + ((c.toNat : Int) - 48)) 0

/-- Model of `fmt.Sscanf(s, "Q%d", &v)`: a literal `Q` followed by an
integer; 0 when the literal does not match or no digits follow. -/
def scanQInt (s : String) : Int :=
  match s.data with
  | 'Q' :: rest => parseLeadingInt (String.mk rest)
  | _ => 0

/-- Model of `parseTimeframe`: recognizes `"<N>months"`, `"<N>year[s]"` and
`"Q<a>-Q<b> <year>"` in that order, falling through on a branch whose
number fails its guard; anything else returns the zero dates.  `now` stands
for Go's `time.Now()`. -/
def parseTimeframe (now : GoTime) (timeframe : String) : GoTime × GoTime :=
  if timeframe = "" then (zeroTime, zeroTime) else
  let monthsBranch : Option (GoTime × GoTime) :=
    if goEndsWith timeframe "months" then
      let months := parseLeadingInt timeframe
      if 0 < months then
        let s := mkDate now.year now.month 1
        some (s, addDate s 0 months 0)
      else none
    else none
  match monthsBranch with
  | some r => r
  | none =>
  let yearBranch : Option (GoTime × GoTime) :=
    if goEndsWith timeframe "year" || goEndsWith timeframe "years" then
      let years := parseLeadingInt timeframe
      if 0 < years then
        let s := mkDate now.year now.month 1
        some (s, addDate s years 0 0)
      else none
    else none
  match yearBranch with
  | some r => r
  | none =>
  let quarterBranch : Option (GoTime × GoTime) :=
    if strContains timeframe "-" && strContains timeframe "Q" then
      let parts := goSplit timeframe '-'
      if parts.length = 2 then
        let p0 := parts.getD 0 ""
        let p1 := parts.getD 1 ""
        let y1 := goTrim (trimPfx p1 "Q1")
        let y2 := goTrim (trimPfx y1 "Q2")
        let y3 := goTrim (trimPfx y2 "Q3")
        let y4 := goTrim (trimPfx y3 "Q4")
        let year := parseLeadingInt y4
        let startQ := scanQInt (goTrim p0)
        let endQ := scanQInt (goTrim p1)
        if 1 ≤ startQ && startQ ≤ 4 && 1 ≤ endQ && endQ ≤ 4 && 0 < year then
          let startMonth := (startQ - 1) * 3 + 1
          let endMonth := endQ * 3
          let sd := mkDate year startMonth 1
          let ed := addDate (mkDate year endMonth 1) 0 1 0
          some (sd, ed)
        else none
      else none
    else none
  match quarterBranch with
  | some r => r
  | none => (zeroTime, zeroTime)

/-- The quarter label `fmt.Sprintf("Q%d %d", (month-1)/3+1, year)` used by
`generateQuarters`, `generateQuartersFromNow` and the quarter grouping. -/
def quarterLabel (t : GoTime) : String :=
  "Q" ++ toString ((t.month - 1) / 3 + 1) ++ " " ++ toString t.year

/-- The loop of `generateQuarters`: starting at `cur`, step month by month
while strictly before `e`, appending each month's quarter label unless it is
already present.  Termination: one `AddDate(0,1,0)` step always lands on a
canonical date and strictly increases the month index, which the guard
bounds by `e`'s year. -/
def genQ (cur e : GoTime) (acc : List String) : List String :=
  if h : before cur e = true then
    genQ (addDate cur 0 1 0) e
      (if acc.contains (quarterLabel cur) then acc
        else acc ++ [quarterLabel cur])
  else acc
termination_by
  (((if CanonB cur then 0 else 1) : Nat), (12 * e.year + 13 - monthIndex cur).toNat)
decreasing_by
  by_cases hc : CanonB cur = true
  · have hnext : CanonB (addDate cur 0 1 0) = true := addDate_canon cur 0 1 0
    rw [hc, hnext]
    apply Prod.Lex.right
    have hmi := addMonth_monthIndex cur hc
    simp only [CanonB, Bool.and_eq_true, decide_eq_true_eq] at hc
    simp only [before, Bool.or_eq_true, Bool.and_eq_true, decide_eq_true_eq] at h
    unfold monthIndex at *
    omega
  · have hnext : CanonB (addDate cur 0 1 0) = true := addDate_canon cur 0 1 0
    rw [hnext]
    simp only [hc]
    apply Prod.Lex.left
    simp

/-- Model of `generateQuarters`: the loop above started with an empty
accumulator. -/
def generateQuarters (s e : GoTime) : List String := genQ s e []

/-- The raw month-by-month label sequence of the same loop, without the
duplicate check: the specification-side trace used to state in what order
`generateQuarters` first sees each label. -/
def quarterTrace (cur e : GoTime) : List String :=
  if h : before cur e = true then
    quarterLabel cur :: quarterTrace (addDate cur 0 1 0) e
  else []
termination_by
  (((if CanonB cur then 0 else 1) : Nat), (12 * e.year + 13 - monthIndex cur).toNat)
decreasing_by
  by_cases hc : CanonB cur = true
  · have hnext : CanonB (addDate cur 0 1 0) = true := addDate_canon cur 0 1 0
    rw [hc, hnext]
    apply Prod.Lex.right
    have hmi := addMonth_monthIndex cur hc
    simp only [CanonB, Bool.and_eq_true, decide_eq_true_eq] at hc
    simp only [before, Bool.or_eq_true, Bool.and_eq_true, decide_eq_true_eq] at h
    unfold monthIndex at *
    omega
  · have hnext : CanonB (addDate cur 0 1 0) = true := addDate_canon cur 0 1 0
    rw [hnext]
    simp only [hc]
    apply Prod.Lex.left
    simp

/-- Keep the first occurrence of every element (specification-side helper;
`seen` accumulates the labels already emitted). -/
def firstSeenAux (seen : List String) : List String → List String
  | [] => []
  | x :: xs =>
    if seen.contains x then firstSeenAux seen xs
    else x :: firstSeenAux (seen ++ [x]) xs

/-- First-occurrence deduplication, preserving order of first appearance. -/
def firstSeen (l : List String) : List String := firstSeenAux [] l

/-- Model of `generateQuartersFromNow`: `count` consecutive quarter labels
starting at `now`'s quarter. -/
def generateQuartersFromNow (now : GoTime) (count : Nat) : List String :=
  let currentYear := now.year
  let currentQuarter := (now.month - 1) / 3 + 1
  (List.range count).map (fun i =>
    let quarterNum := (currentQuarter + (i : Int) - 1) % 4 + 1
    let yearOffset := (currentQuarter + (i : Int) - 1) / 4
    "Q" ++ toString quarterNum ++ " " ++ toString (currentYear + yearOffset))

/-- Model of `generator.Options` (format, view and grouping names are the
string literals the Go constants stand for). -/
structure Options where
  Format : String
  GroupBy : String
  IncludeMetadata : Bool
  VersionLabel : String
  RoadmapTimeframe : String
  RoadmapGrouping : String
  RoadmapView : String
  IncludeDependencies : Bool
deriving DecidableEq, Repr

/-- Structural abstraction of the generated Confluence markup: one event
per header row, item row, summary/legend block, or section emitted by the
writers; the surrounding HTML carries no further structure. -/
inductive RenderEvent where
  | header
  | footer
  | formatTable
  | formatKanban
  | formatCustom
  | formatGantt
  | roadmapTitle
  | roadmapDesc (startDate endDate : GoTime)
  | roadmapLegend
  | timelineHeader
  | statusSummary (counts : List (String × Nat))
  | groupHeader (label : String)
  | itemRow (item : RoadmapItem)
  | timelineLegend
  | strategicHeader
  | themeHeader (name : String)
  | initiativeRow (ini : Initiative)
  | releaseHeader
  | timeframeNote (tf : String)
  | milestoneRow (ms : Milestone)
  | epicGanttHeader
  | epicHeader (name : String)
  | depsNote
  | dependenciesBlock
deriving DecidableEq, Repr

/-- Increment the per-status counter (`statusCounts[item.Status]++`). -/
def bumpCount (acc : List (String × Nat)) (s : String) : List (String × Nat) :=
  match acc with
  | [] => [(s, 1)]
  | (k, n) :: rest =>
    if k = s then (k, n + 1) :: rest else (k, n) :: bumpCount rest s

/-- Model of `generateTimelineView`: status summary, then one header row
per group followed by that group's item rows; an empty axis is replaced by
four quarters from `now`. -/
def generateTimelineView (now : GoTime) (data : AggregatedData)
    (quarters : List String) (opts : Options) : List RenderEvent :=
  let _quarters :=
    if quarters.isEmpty then generateQuartersFromNow now 4 else quarters
  let grouped := groupRoadmapItems data opts.RoadmapGrouping
  let counts := grouped.foldl
    (fun acc p => p.2.foldl (fun a it => bumpCount a it.Status) acc) []
  [RenderEvent.timelineHeader, RenderEvent.statusSummary counts] ++
    grouped.foldr
      (fun p acc =>
        RenderEvent.groupHeader p.1 :: p.2.map RenderEvent.itemRow ++ acc) [] ++
    [RenderEvent.timelineLegend] ++
    (if opts.IncludeDependencies then [RenderEvent.dependenciesBlock] else [])

/-- Replace the value of an existing key, else append (Go map assignment). -/
def setAssocIni (lst : List (String × Initiative)) (k : String)
    (v : Initiative) : List (String × Initiative) :=
  match lst with
  | [] => [(k, v)]
  | (k', v') :: rest =>
    if k' = k then (k', v) :: rest else (k', v') :: setAssocIni rest k v

/-- Create the theme entry when absent (`themeMap[theme] = make(...)`). -/
def ensureTheme (m : List (String × List (String × Initiative)))
    (theme : String) : List (String × List (String × Initiative)) :=
  if m.any (fun p => p.1 = theme) then m else m ++ [(theme, [])]

/-- Store an initiative under its theme (`themeMap[theme][initiative] = v`). -/
def setThemeIni (m : List (String × List (String × Initiative)))
    (theme ini : String) (v : Initiative) :
    List (String × List (String × Initiative)) :=
  match m with
  | [] => []
  | (t, inis) :: rest =>
    if t = theme then (t, setAssocIni inis ini v) :: rest
    else (t, inis) :: setThemeIni rest theme ini v

/-- Model of `extractThemes`: issues carrying a theme, an initiative and
both planned dates contribute one (possibly overwritten) initiative per
(theme, initiative) pair; quarter indices are never assigned. -/
def extractThemes (data : AggregatedData) : List Theme :=
  let step1 := data.jiraIssues.foldl
    (fun m issue =>
      if issue.Theme ≠ "" && issue.Initiative ≠ "" &&
          issue.PlannedStartDate.isSome && issue.PlannedEndDate.isSome then
        let st :=
          if issue.RoadmapStatus = "" then deriveRoadmapStatus issue.Status
          else issue.RoadmapStatus
        setThemeIni (ensureTheme m issue.Theme) issue.Theme issue.Initiative
          ⟨issue.Initiative, st, 0, 0⟩
      else m) []
  let step2 := data.githubIssues.foldl
    (fun m issue =>
      if issue.Theme ≠ "" && issue.Initiative ≠ "" &&
          issue.PlannedStartDate.isSome && issue.PlannedEndDate.isSome then
        let st :=
          if issue.RoadmapStatus = "" then
            deriveRoadmapStatusFromGitHub issue.State
          else issue.RoadmapStatus
        setThemeIni (ensureTheme m issue.Theme) issue.Theme issue.Initiative
          ⟨issue.Initiative, st, 0, 0⟩
      else m) step1
  step2.map (fun p => ⟨p.1, p.2.map Prod.snd⟩)

/-- Model of `generateStrategicView`. -/
def generateStrategicView (now : GoTime) (data : AggregatedData)
    (quarters : List String) (opts : Options) : List RenderEvent :=
  let _ := now
  let _ := quarters
  (if opts.IncludeDependencies then [RenderEvent.depsNote] else []) ++
    [RenderEvent.strategicHeader] ++
    (extractThemes data).foldr
      (fun th acc =>
        RenderEvent.themeHeader th.Name ::
          th.Initiatives.map RenderEvent.initiativeRow ++ acc) []

/-- Model of `generateReleaseView`: one flat row per milestone. -/
def generateReleaseView (now : GoTime) (data : AggregatedData)
    (quarters : List String) (opts : Options) : List RenderEvent :=
  let _ := now
  let _ := quarters
  (if opts.IncludeDependencies then [RenderEvent.depsNote] else []) ++
    (if opts.RoadmapTimeframe ≠ "" then
      [RenderEvent.timeframeNote opts.RoadmapTimeframe] else []) ++
    [RenderEvent.releaseHeader] ++
    (extractMilestones data).map RenderEvent.milestoneRow

/-- First pass of `generateEpicGanttView`: collect (key, summary) of every
Jira issue whose type is "Epic", first occurrence of a key winning. -/
def collectEpics (issues : List JiraIssue) : List (String × String) :=
  issues.foldl
    (fun acc issue =>
      if issue.IssueType = "Epic" then
        if acc.any (fun p => p.1 = issue.Key) then acc
        else acc ++ [(issue.Key, issue.Summary)]
      else acc) []

/-- Replace-or-append on the epic name map (Go map assignment). -/
def setAssocStr (lst : List (String × String)) (k v : String) :
    List (String × String) :=
  match lst with
  | [] => [(k, v)]
  | (k', v') :: rest =>
    if k' = k then (k', v) :: rest else (k', v') :: setAssocStr rest k v

/-- Association-list lookup with Go's zero-value default for maps. -/
def lookupStr (lst : List (String × String)) (k : String) : String :=
  match lst with
  | [] => ""
  | (k', v) :: rest => if k' = k then v else lookupStr rest k

/-- Bucket lookup (`epicMap[key]`, nil slice when absent). -/
def lookupGroup (m : List (String × List RoadmapItem)) (k : String) :
    List RoadmapItem :=
  match m with
  | [] => []
  | (k', v) :: rest => if k' = k then v else lookupGroup rest k

/-- Epic association of a GitHub issue: the first registered epic key
(other than "No Epic") occurring as a substring of the title; the Go code
ranges over the name map, modelled here in registration order. -/
def findEpicKeyForTitle (epics : List (String × String)) (title : String) :
    String :=
  match epics with
  | [] => "No Epic"
  | (k, _) :: rest =>
    if k ≠ "No Epic" && strContains title k then k
    else findEpicKeyForTitle rest title

/-- The ordered epic-key list of `generateEpicGanttView`: registered epics
then the fallback "No Epic". -/
def allEpicsList (data : AggregatedData) : List String :=
  (collectEpics data.jiraIssues).map Prod.fst ++ ["No Epic"]

/-- The epic name map after registering the fallback entry. -/
def epicNames (data : AggregatedData) : List (String × String) :=
  setAssocStr (collectEpics data.jiraIssues) "No Epic" "Issues without Epic"

/-- The item buckets of `generateEpicGanttView`: non-epic Jira issues by
epic link, then GitHub issues by title-substring association. -/
def epicMapOf (data : AggregatedData) : List (String × List RoadmapItem) :=
  let m1 := data.jiraIssues.foldl
    (fun acc issue =>
      if issue.IssueType = "Epic" then acc
      else
        insertGroup acc
          (if issue.EpicLink ≠ "" then issue.EpicLink else "No Epic")
          (jiraToItem issue)) []
  data.githubIssues.foldl
    (fun acc issue =>
      insertGroup acc (findEpicKeyForTitle (epicNames data) issue.Title)
        (githubToItem issue)) m1

/-- Model of `generateEpicGanttView`: for each registered epic in order, a
header row and its item rows — but an epic (other than "No Epic") with an
empty bucket is skipped. -/
def generateEpicGanttView (now : GoTime) (data : AggregatedData)
    (quarters : List String) (opts : Options) : List RenderEvent :=
  let _quarters :=
    if quarters.isEmpty then generateQuartersFromNow now 4 else quarters
  let epicMap := epicMapOf data
  [RenderEvent.epicGanttHeader] ++
    (allEpicsList data).foldr
      (fun epicKey acc =>
        if (lookupGroup epicMap epicKey).isEmpty && epicKey ≠ "No Epic" then
          acc
        else
          RenderEvent.epicHeader (lookupStr (epicNames data) epicKey) ::
            (lookupGroup epicMap epicKey).map RenderEvent.itemRow ++ acc) [] ++
    [RenderEvent.timelineLegend] ++
    (if opts.IncludeDependencies then [RenderEvent.dependenciesBlock] else [])

/-- Model of `generateRoadmapFormat`: resolve the timeframe (empty result
falls back to a 12-month window at the current month), build the quarter
axis, dispatch on the view name — an unrecognized view name falls back to
the timeline view — and append the legend. -/
def generateRoadmapFormat (now : GoTime) (data : AggregatedData)
    (opts : Options) : List RenderEvent :=
  let p := parseTimeframe now opts.RoadmapTimeframe
  let p' :=
    if isZero p.1 then
      let s := mkDate now.year now.month 1
      (s, addDate s 1 0 0)
    else p
  let quarters := generateQuarters p'.1 p'.2
  [RenderEvent.roadmapTitle, RenderEvent.roadmapDesc p'.1 p'.2] ++
    (if opts.RoadmapView = "timeline" then
      generateTimelineView now data quarters opts
    else if opts.RoadmapView = "strategic" then
      generateStrategicView now data quarters opts
    else if opts.RoadmapView = "release" then
      generateReleaseView now data quarters opts
    else if opts.RoadmapView = "epicgantt" then
      generateEpicGanttView now data quarters opts
    else
      generateTimelineView now data quarters opts) ++
    [RenderEvent.roadmapLegend]

/-- Model of `Generate`: header, then the format dispatch — only an
unrecognized format name is an error — then the optional metadata footer. -/
def Generate (now : GoTime) (data : AggregatedData) (opts : Options) :
    Except String (List RenderEvent) :=
  let body :=
    if opts.Format = "table" then Except.ok [RenderEvent.formatTable]
    else if opts.Format = "kanban" then Except.ok [RenderEvent.formatKanban]
    else if opts.Format = "custom" then Except.ok [RenderEvent.formatCustom]
    else if opts.Format = "gantt" then Except.ok [RenderEvent.formatGantt]
    else if opts.Format = "roadmap" then
      Except.ok (generateRoadmapFormat now data opts)
    else Except.error ("unsupported format: " ++ opts.Format)
  match body with
  | Except.error e => Except.error e
  | Except.ok evs =>
    Except.ok ([RenderEvent.header] ++ evs ++
      (if opts.IncludeMetadata then [RenderEvent.footer] else []))

theorem normYM_id (y m : Int) (h1 : 1 ≤ m) (h2 : m ≤ 12) :
    normYM y m = (y, m) := by
  simp only [normYM, Prod.mk.injEq]
  omega

theorem mkDate_id (y m d : Int) (h1 : 1 ≤ m) (h2 : m ≤ 12) (h3 : 1 ≤ d)
    (h4 : d ≤ daysInMonth y m) : mkDate y m d = ⟨y, m, d⟩ := by
  unfold mkDate
  rw [if_pos h3, normYM_id y m h1 h2, fixDayUp, dif_pos h4]

theorem addDate_mk (y m d a b c : Int) :
    addDate ⟨y, m, d⟩ a b c = mkDate (y + a) (m + b) (d + c) := rfl

/-- Witness data: an item whose start date pointer is nil. -/
def itemNilDates : RoadmapItem :=
  ⟨"jira", none, none, "Planned", none, some ⟨2025, 1, 1⟩⟩

/-- C10: an item whose StartDate or EndDate is a nil pointer is placed at
(0, 0) whatever the axis holds, and the render loop draws exactly one
single-cell marker, in the first quarter column. -/
theorem nil_date_items_first_cell (item : RoadmapItem)
    (quarters : List String)
    (h : item.StartDate = none ∨ item.EndDate = none) :
    getItemQuarters item quarters = (0, 0) ∧
    cellMarker 0 0 0 = some CellMark.single ∧
    (∀ i : Int, i ≠ 0 → cellMarker i 0 0 = none) := by
  refine ⟨?_, by decide, ?_⟩
  · rcases h with h | h
    · cases hx : item.EndDate <;> simp [getItemQuarters, h, hx]
    · cases hx : item.StartDate <;> simp [getItemQuarters, h, hx]
  · intro i hi
    unfold cellMarker
    rw [if_neg (by omega)]

theorem nil_date_items_first_cell_witness :
    (itemNilDates.StartDate = none ∨ itemNilDates.EndDate = none) ∧
    (getItemQuarters itemNilDates ["Q1 2025", "Q2 2025"] = (0, 0) ∧
      cellMarker 0 0 0 = some CellMark.single ∧
      (∀ i : Int, i ≠ 0 → cellMarker i 0 0 = none)) :=
  ⟨Or.inl rfl,
    nil_date_items_first_cell itemNilDates ["Q1 2025", "Q2 2025"] (Or.inl rfl)⟩

/-- Counterexample data for quarter placement: start date in Q2 2025, end
date in Q1 2025 (the engine never validates start ≤ end), axis of both. -/
def invItem : RoadmapItem :=
  ⟨"jira", none, none, "Planned", some ⟨2025, 4, 1⟩, some ⟨2025, 2, 1⟩⟩

/-- The two-quarter axis used with `invItem`. -/
def invAxis : List String := ["Q1 2025", "Q2 2025"]

/-- C1 fails on the code: for an inverted range `getItemQuarters` returns
startIndex 1 > endIndex 0 — no clamp of startIndex down to endIndex
exists in the function. -/
theorem quarter_placement_no_clamp :
    invItem.StartDate.isSome = true ∧ invItem.EndDate.isSome = true ∧
    invAxis ≠ [] ∧
    getItemQuarters invItem invAxis = (1, 0) ∧
    ¬((getItemQuarters invItem invAxis).1 ≤
      (getItemQuarters invItem invAxis).2) := by decide

theorem findFrom_range (qs : List String) (s : String) (i : Int) :
    findFrom qs s i = -1 ∨
      (i ≤ findFrom qs s i ∧ findFrom qs s i < i + qs.length) := by
  induction qs generalizing i with
  | nil => exact Or.inl rfl
  | cons q rest ih =>
    unfold findFrom
    by_cases hq : q = s
    · rw [if_pos hq]
      right
      constructor
      · omega
      · simp only [List.length_cons]
        push_cast
        omega
    · rw [if_neg hq]
      rcases ih (i + 1) with h | h
      · exact Or.inl h
      · right
        simp only [List.length_cons]
        push_cast
        omega

/-- C1 (amended): with both dates set and a non-empty axis, each returned
index lies in `[0, len(axis) - 1]`; the bound `startIndex ≤ endIndex` of
the original claim does not hold (see `quarter_placement_no_clamp`). -/
theorem quarter_placement_bounds (item : RoadmapItem)
    (quarters : List String) (hq : quarters ≠ [])
    (hs : item.StartDate.isSome = true) (he : item.EndDate.isSome = true) :
    0 ≤ (getItemQuarters item quarters).1 ∧
    (getItemQuarters item quarters).1 ≤ (quarters.length : Int) - 1 ∧
    0 ≤ (getItemQuarters item quarters).2 ∧
    (getItemQuarters item quarters).2 ≤ (quarters.length : Int) - 1 := by
  obtain ⟨sd, hsd⟩ := Option.isSome_iff_exists.mp hs
  obtain ⟨ed, hed⟩ := Option.isSome_iff_exists.mp he
  have h1 := findFrom_range quarters (runeQuarterLabel sd) 0
  have h2 := findFrom_range quarters (runeQuarterLabel ed) 0
  have hl : 1 ≤ quarters.length := by
    cases quarters with
    | nil => exact absurd rfl hq
    | cons a t => simp
  simp only [getItemQuarters, hsd, hed]
  have hlc : (1 : Int) ≤ (quarters.length : Int) := by exact_mod_cast hl
  split_ifs <;> omega

theorem quarter_placement_bounds_witness :
    invAxis ≠ [] ∧ invItem.StartDate.isSome = true ∧
    invItem.EndDate.isSome = true ∧
    (0 ≤ (getItemQuarters invItem invAxis).1 ∧
      (getItemQuarters invItem invAxis).1 ≤ (invAxis.length : Int) - 1 ∧
      0 ≤ (getItemQuarters invItem invAxis).2 ∧
      (getItemQuarters invItem invAxis).2 ≤ (invAxis.length : Int) - 1) :=
  ⟨by decide, by decide, by decide,
    quarter_placement_bounds invItem invAxis (by decide) (by decide)
      (by decide)⟩

theorem aggregateStatus_mem (a b : String) (ha : a ∈ canonicalStatuses)
    (hb : b ∈ canonicalStatuses) : aggregateStatus a b ∈ canonicalStatuses := by
  unfold aggregateStatus
  split
  · exact hb
  · exact ha

theorem aggregateStatus_left_comm (i x y : String)
    (hi : i ∈ canonicalStatuses) (hx : x ∈ canonicalStatuses)
    (hy : y ∈ canonicalStatuses) :
    aggregateStatus (aggregateStatus i x) y =
      aggregateStatus (aggregateStatus i y) x := by
  fin_cases hi <;> fin_cases hx <;> fin_cases hy <;> rfl

theorem aggregateStatus_foldl_perm (l l' : List String) (init : String)
    (hp : l.Perm l') (hinit : init ∈ canonicalStatuses)
    (hl : ∀ s ∈ l, s ∈ canonicalStatuses) :
    l.foldl aggregateStatus init = l'.foldl aggregateStatus init := by
  induction hp generalizing init with
  | nil => rfl
  | cons x hperm ih =>
    simp only [List.foldl_cons]
    exact ih (aggregateStatus init x)
      (aggregateStatus_mem _ _ hinit (hl x (by simp)))
      (fun s hs => hl s (by simp [hs]))
  | swap x y l =>
    simp only [List.foldl_cons]
    rw [aggregateStatus_left_comm init y x hinit
      (hl y (by simp)) (hl x (by simp))]
  | trans h₁ h₂ ih₁ ih₂ =>
    refine (ih₁ init hinit hl).trans (ih₂ init hinit ?_)
    intro s hs
    exact hl s (h₁.mem_iff.mpr hs)

/-- C6: on the five canonical statuses, `aggregateStatus` is commutative
and associative, returns the argument of higher priority under
Blocked(5) > At Risk(4) > In Progress(3) > Planned(2) > Completed(1), and
therefore folding it over any permutation of the same status multiset
yields the same aggregate. -/
theorem aggregate_status_comm_assoc :
    (∀ a ∈ canonicalStatuses, ∀ b ∈ canonicalStatuses,
      aggregateStatus a b = aggregateStatus b a) ∧
    (∀ a ∈ canonicalStatuses, ∀ b ∈ canonicalStatuses,
      ∀ c ∈ canonicalStatuses,
      aggregateStatus (aggregateStatus a b) c =
        aggregateStatus a (aggregateStatus b c)) ∧
    (∀ a ∈ canonicalStatuses, ∀ b ∈ canonicalStatuses,
      (aggregateStatus a b = a ∨ aggregateStatus a b = b) ∧
      statusPriority (aggregateStatus a b) =
        max (statusPriority a) (statusPriority b)) ∧
    (∀ l l' : List String, ∀ init ∈ canonicalStatuses, l.Perm l' →
      (∀ s ∈ l, s ∈ canonicalStatuses) →
      l.foldl aggregateStatus init = l'.foldl aggregateStatus init) := by
  refine ⟨by decide, by decide, by decide, ?_⟩
  intro l l' init hinit hp hl
  exact aggregateStatus_foldl_perm l l' init hp hinit hl

theorem aggregate_status_comm_assoc_witness :
    ("At Risk" ∈ canonicalStatuses ∧ "Blocked" ∈ canonicalStatuses) ∧
    aggregateStatus "At Risk" "Blocked" =
      aggregateStatus "Blocked" "At Risk" :=
  ⟨⟨by decide, by decide⟩,
    aggregate_status_comm_assoc.1 "At Risk" (by decide) "Blocked" (by decide)⟩

/-- Witness data: an open GitHub issue with no planned dates, created
2025-01-10 and updated 2025-01-20 (the spec's worked example). -/
def ghOpenIssue : GitHubIssue :=
  ⟨"Improve docs", "open", [], ⟨2025, 1, 10⟩, ⟨2025, 1, 20⟩,
    none, none, "", "", "", "", ""⟩

/-- C7: an issue normalized without an explicit planned end date gets the
update timestamp as end date when its native status is completed (Jira:
Done/Closed/Resolved, GitHub: "closed"), else start + 14 days; the spec's
example (open GitHub issue created 2025-01-10) normalizes to start
2025-01-10, end 2025-01-24. -/
theorem end_date_inference :
    (∀ issue : JiraIssue, issue.PlannedEndDate = none →
      (jiraToItem issue).EndDate = some (
        if issue.Status = "Done" || issue.Status = "Closed" ||
            issue.Status = "Resolved" then issue.UpdatedDate
        else addDate (issue.PlannedStartDate.getD issue.CreatedDate) 0 0 14)) ∧
    (∀ issue : GitHubIssue, issue.PlannedEndDate = none →
      (githubToItem issue).EndDate = some (
        if issue.State = "closed" then issue.UpdatedDate
        else addDate (issue.PlannedStartDate.getD issue.CreatedDate) 0 0 14)) ∧
    ((githubToItem ghOpenIssue).StartDate = some ⟨2025, 1, 10⟩ ∧
      (githubToItem ghOpenIssue).EndDate = some ⟨2025, 1, 24⟩) := by
  refine ⟨?_, ?_, ?_, ?_⟩
  · intro issue h
    cases hps : issue.PlannedStartDate <;>
      simp [jiraToItem, h, hps, Option.getD]
  · intro issue h
    cases hps : issue.PlannedStartDate <;>
      simp [githubToItem, h, hps, Option.getD]
  · rfl
  · have hadd : addDate ⟨2025, 1, 10⟩ 0 0 14 = ⟨2025, 1, 24⟩ := by
      rw [addDate_mk]
      norm_num
      exact mkDate_id 2025 1 24 (by norm_num) (by norm_num) (by norm_num)
        (by decide)
    simp [githubToItem, ghOpenIssue, hadd]

theorem end_date_inference_witness :
    (ghOpenIssue.PlannedEndDate = none) ∧
    (githubToItem ghOpenIssue).EndDate = some (
      if ghOpenIssue.State = "closed" then ghOpenIssue.UpdatedDate
      else addDate (ghOpenIssue.PlannedStartDate.getD ghOpenIssue.CreatedDate)
        0 0 14) :=
  ⟨rfl, end_date_inference.2.1 ghOpenIssue rfl⟩

theorem insertGroup_keys (m : List (String × List RoadmapItem)) (k : String)
    (it : RoadmapItem) :
    (insertGroup m k it).map Prod.fst =
      if m.any (fun p => p.1 = k) then m.map Prod.fst
      else m.map Prod.fst ++ [k] := by
  induction m with
  | nil => simp [insertGroup]
  | cons p rest ih =>
    obtain ⟨k', v⟩ := p
    by_cases h : k' = k
    · simp [insertGroup, h]
    · cases h2 : rest.any (fun p => p.1 = k) <;>
        simp [insertGroup, h, ih, h2, List.any_cons]

theorem insertGroup_keys_nodup (m : List (String × List RoadmapItem))
    (k : String) (it : RoadmapItem) (h : (m.map Prod.fst).Nodup) :
    ((insertGroup m k it).map Prod.fst).Nodup := by
  rw [insertGroup_keys]
  split
  · exact h
  · rename_i hany
    have hk : k ∉ m.map Prod.fst := by
      intro hmem
      obtain ⟨p, hp, hpk⟩ := List.mem_map.mp hmem
      exact hany (List.any_eq_true.mpr ⟨p, hp, by simp [hpk]⟩)
    simp [List.nodup_append, h, hk]

theorem insertGroup_join (m : List (String × List RoadmapItem)) (k : String)
    (it : RoadmapItem) :
    ((insertGroup m k it).map Prod.snd).join.Perm
      ((m.map Prod.snd).join ++ [it]) := by
  induction m with
  | nil => simp [insertGroup]
  | cons p rest ih =>
    obtain ⟨k', v⟩ := p
    by_cases h : k' = k
    · simp only [insertGroup, if_pos h, List.map_cons, List.join_cons]
      have h1 : (v ++ [it]) ++ (rest.map Prod.snd).join =
          v ++ ([it] ++ (rest.map Prod.snd).join) := by
        rw [List.append_assoc]
      rw [h1]
      refine (List.Perm.append_left v (List.perm_append_comm)).trans ?_
      rw [List.append_assoc]
    · simp only [insertGroup, if_neg h, List.map_cons, List.join_cons]
      refine (ih.append_left v).trans ?_
      rw [List.append_assoc]

theorem groupFold_nodup_perm (f : RoadmapItem → String)
    (items : List RoadmapItem) (m : List (String × List RoadmapItem))
    (hm : (m.map Prod.fst).Nodup) :
    (((items.foldl (fun acc it => insertGroup acc (f it) it) m).map
        Prod.fst).Nodup) ∧
    ((items.foldl (fun acc it => insertGroup acc (f it) it) m).map
        Prod.snd).join.Perm ((m.map Prod.snd).join ++ items) := by
  induction items generalizing m with
  | nil =>
    refine ⟨hm, ?_⟩
    simp
  | cons it rest ih =>
    simp only [List.foldl_cons]
    obtain ⟨h1, h2⟩ := ih (insertGroup m (f it) it)
      (insertGroup_keys_nodup _ _ _ hm)
    refine ⟨h1, h2.trans ?_⟩
    refine ((insertGroup_join m (f it) it).append_right rest).trans ?_
    rw [List.append_assoc]
    exact List.Perm.refl _

/-- C5: for every grouping key — the four recognized ones and any
unrecognized key — `groupRoadmapItems` partitions the normalized items:
group labels are pairwise distinct and the concatenation of all groups is a
permutation of the normalized input items (each item exactly once). -/
theorem grouping_partition (data : AggregatedData) (grouping : String) :
    ((groupRoadmapItems data grouping).map Prod.fst).Nodup ∧
    ((groupRoadmapItems data grouping).map Prod.snd).join.Perm
      (allRoadmapItems data) := by
  unfold groupRoadmapItems
  split_ifs with h1 h2 h3 h4
  · simpa using groupFold_nodup_perm groupKeyEpic (allRoadmapItems data) []
      (by simp)
  · simpa using groupFold_nodup_perm groupKeyTheme (allRoadmapItems data) []
      (by simp)
  · simpa using groupFold_nodup_perm groupKeyTeam (allRoadmapItems data) []
      (by simp)
  · simpa using groupFold_nodup_perm groupKeyQuarter (allRoadmapItems data) []
      (by simp)
  · simp

/-- Planned end date of the source issue behind a roadmap item. -/
def itemPlannedEnd (it : RoadmapItem) : Option GoTime :=
  match it.jira, it.github with
  | some ji, _ => ji.PlannedEndDate
  | none, some gi => gi.PlannedEndDate
  | none, none => none

/-- Invariant of the milestone accumulation map: every entry has at least
one item, its status is the fold of `aggregateStatus` over its items'
statuses seeded with "Planned", and its target date is the planned end date
of the first item that populated it. -/
def MsInv (lst : List (String × Milestone)) : Prop :=
  ∀ p ∈ lst, p.2.Items ≠ [] ∧
    p.2.Status =
      (p.2.Items.map RoadmapItem.Status).foldl aggregateStatus "Planned" ∧
    (p.2.Items.head?.bind itemPlannedEnd) = some p.2.TargetDate

theorem msAppend_inv (lst : List (String × Milestone)) (k : String)
    (item : RoadmapItem) (h : MsInv lst) : MsInv (msAppend lst k item) := by
  induction lst with
  | nil => intro p hp; simp [msAppend] at hp
  | cons q rest ih =>
    obtain ⟨k', ms⟩ := q
    have hhead := h ⟨k', ms⟩ (by simp)
    have hrest : MsInv rest := fun p hp => h p (by simp [hp])
    by_cases hk : k' = k
    · intro p hp
      simp only [msAppend, if_pos hk, List.mem_cons] at hp
      rcases hp with rfl | hp
      · obtain ⟨hne, hst, htd⟩ := hhead
        dsimp only at hne hst htd
        refine ⟨by simp, ?_, ?_⟩
        · simp only [List.map_append, List.foldl_append,
            List.map_cons, List.map_nil, List.foldl_cons, List.foldl_nil]
          rw [hst]
        · cases hms : ms.Items with
          | nil => exact absurd hms hne
          | cons x t => rw [hms] at htd; simpa using htd
      · exact h p (by simp [hp])
    · intro p hp
      simp only [msAppend, if_neg hk, List.mem_cons] at hp
      rcases hp with rfl | hp
      · exact hhead
      · exact ih hrest p hp

theorem msAppend_notfound (lst : List (String × Milestone)) (k : String)
    (item : RoadmapItem) (ms : Milestone) (h : hasMsKey lst k = false) :
    msAppend (lst ++ [(k, ms)]) k item =
      lst ++ [(k, { ms with
        Items := ms.Items ++ [item],
        Status := aggregateStatus ms.Status item.Status })] := by
  induction lst with
  | nil => simp [msAppend]
  | cons q rest ih =>
    obtain ⟨k', ms'⟩ := q
    simp only [hasMsKey, List.any_cons, Bool.or_eq_false_iff,
      decide_eq_false_iff_not] at h
    rw [List.cons_append, msAppend, if_neg h.1,
      ih (by simpa [hasMsKey] using h.2)]
    rfl

theorem msStep_inv (lst : List (String × Milestone)) (name : String)
    (target : GoTime) (item : RoadmapItem) (h : MsInv lst)
    (hit : itemPlannedEnd item = some target) :
    MsInv (msStep lst name target item) := by
  unfold msStep
  by_cases hk : hasMsKey lst name = true
  · rw [if_pos hk]
    exact msAppend_inv _ _ _ h
  · rw [if_neg hk]
    rw [msAppend_notfound lst name item ⟨name, target, "Planned", []⟩
      (by simpa using hk)]
    intro p hp
    rcases List.mem_append.mp hp with hp | hp
    · exact h p hp
    · simp only [List.mem_singleton] at hp
      subst hp
      exact ⟨by simp, rfl, by simpa using hit⟩

theorem foldl_msInv {α : Type} (f : List (String × Milestone) → α →
      List (String × Milestone))
    (hf : ∀ acc a, MsInv acc → MsInv (f acc a)) (l : List α)
    (init : List (String × Milestone)) (h : MsInv init) :
    MsInv (l.foldl f init) := by
  induction l generalizing init with
  | nil => exact h
  | cons a rest ih => exact ih (f init a) (hf init a h)

/-- C3 (amended): every milestone produced by `extractMilestones` has at
least one member; its Status is the fold of `aggregateStatus` over its
members' statuses seeded with "Planned" (the Go code initializes the
milestone status to "Planned" before aggregating, so an all-Completed
milestone reports "Planned"); its TargetDate is the planned end date of the
first item that populated it. -/
theorem milestone_status_aggregate (data : AggregatedData) (m : Milestone)
    (hm : m ∈ extractMilestones data) :
    m.Items ≠ [] ∧
    m.Status =
      (m.Items.map RoadmapItem.Status).foldl aggregateStatus "Planned" ∧
    (m.Items.head?.bind itemPlannedEnd) = some m.TargetDate := by
  have hinv : MsInv (data.githubIssues.foldl
      (fun acc issue =>
        match issue.PlannedEndDate with
        | some pend =>
          if issue.Milestone ≠ "" then
            msStep acc issue.Milestone pend (githubToMsItem issue)
          else acc
        | none => acc)
      (data.jiraIssues.foldl
        (fun acc issue =>
          match issue.PlannedEndDate with
          | some pend =>
            if issue.Milestone ≠ "" then
              msStep acc issue.Milestone pend (jiraToMsItem issue)
            else acc
          | none => acc) [])) := by
    refine foldl_msInv _ ?_ _ _ (foldl_msInv _ ?_ _ []
      (fun p hp => absurd hp (List.not_mem_nil p)))
    · intro acc issue hacc
      cases hpe : issue.PlannedEndDate with
      | none => exact hacc
      | some pend =>
        dsimp only
        split
        · exact msStep_inv _ _ _ _ hacc (by simp [githubToMsItem, itemPlannedEnd, hpe])
        · exact hacc
    · intro acc issue hacc
      cases hpe : issue.PlannedEndDate with
      | none => exact hacc
      | some pend =>
        dsimp only
        split
        · exact msStep_inv _ _ _ _ hacc (by simp [jiraToMsItem, itemPlannedEnd, hpe])
        · exact hacc
  unfold extractMilestones at hm
  obtain ⟨p, hp, rfl⟩ := List.mem_map.mp hm
  exact hinv p hp

/-- Counterexample data: one Done Jira issue in milestone "M1" with an
explicit planned end date. -/
def msDoneIssue : JiraIssue :=
  ⟨"PROJ-9", "Story", "Ship it", "Done", "", "", ⟨2025, 1, 1⟩,
    ⟨2025, 2, 1⟩, none, some ⟨2025, 6, 30⟩, "", "", "", "M1", ""⟩

/-- The aggregated data holding only `msDoneIssue`. -/
def msData : AggregatedData := ⟨[msDoneIssue], []⟩

/-- C3 fails on the code: a milestone all of whose members have status
"Completed" gets Status "Planned" (the "Planned" seed outranks
"Completed"), not the members' maximum "Completed" the claim requires. -/
theorem milestone_status_counterexample :
    (extractMilestones msData).map Milestone.Status = ["Planned"] ∧
    (extractMilestones msData).map (fun m => m.Items.map RoadmapItem.Status) =
      [["Completed"]] ∧
    ("Planned" : String) ≠ "Completed" := by decide

theorem milestone_status_aggregate_witness :
    (⟨"M1", ⟨2025, 6, 30⟩, "Planned", [jiraToMsItem msDoneIssue]⟩ : Milestone)
        ∈ extractMilestones msData ∧
    ((⟨"M1", ⟨2025, 6, 30⟩, "Planned", [jiraToMsItem msDoneIssue]⟩ :
        Milestone).Items ≠ [] ∧
      (⟨"M1", ⟨2025, 6, 30⟩, "Planned", [jiraToMsItem msDoneIssue]⟩ :
        Milestone).Status =
        (((⟨"M1", ⟨2025, 6, 30⟩, "Planned", [jiraToMsItem msDoneIssue]⟩ :
          Milestone).Items.map RoadmapItem.Status).foldl aggregateStatus
          "Planned") ∧
      ((⟨"M1", ⟨2025, 6, 30⟩, "Planned", [jiraToMsItem msDoneIssue]⟩ :
        Milestone).Items.head?.bind itemPlannedEnd) =
        some (⟨"M1", ⟨2025, 6, 30⟩, "Planned",
          [jiraToMsItem msDoneIssue]⟩ : Milestone).TargetDate) :=
  ⟨by decide,
    milestone_status_aggregate msData _ (by decide)⟩

theorem firstSeenAux_not_mem (l seen : List String) (x : String)
    (hx : x ∈ seen) : x ∉ firstSeenAux seen l := by
  induction l generalizing seen with
  | nil => simp [firstSeenAux]
  | cons y ys ih =>
    unfold firstSeenAux
    by_cases hy : seen.contains y
    · rw [if_pos hy]
      exact ih seen hx
    · rw [if_neg hy]
      intro hmem
      rcases List.mem_cons.mp hmem with rfl | hmem
      · exact hy (by simpa using hx)
      · exact ih (seen ++ [y]) (by simp [hx]) hmem

theorem firstSeenAux_nodup (l seen : List String) :
    (firstSeenAux seen l).Nodup := by
  induction l generalizing seen with
  | nil => simp [firstSeenAux]
  | cons y ys ih =>
    unfold firstSeenAux
    split
    · exact ih seen
    · exact List.nodup_cons.mpr
        ⟨firstSeenAux_not_mem ys (seen ++ [y]) y (by simp), ih (seen ++ [y])⟩

theorem genQ_eq_firstSeenAux (cur e : GoTime) (acc : List String) :
    genQ cur e acc = acc ++ firstSeenAux acc (quarterTrace cur e) := by
  induction cur, e, acc using genQ.induct with
  | case1 cur e acc h ih =>
    rw [genQ, dif_pos h, quarterTrace, dif_pos h]
    unfold firstSeenAux
    by_cases hc : acc.contains (quarterLabel cur)
    · rw [dif_pos hc] at ih
      simp only [if_pos hc]
      exact ih
    · rw [dif_neg hc] at ih
      simp only [if_neg hc]
      rw [ih, ← List.append_cons]
  | case2 cur e acc h =>
    rw [genQ, dif_neg h, quarterTrace, dif_neg h]
    simp [firstSeenAux]

/-- C9: for every date range whose start is strictly before its end,
`generateQuarters` equals the first-occurrence deduplication of the
month-stepped label trace (labels in first-seen chronological order), is
non-empty, and has no duplicate labels. -/
theorem quarter_axis_first_seen (s e : GoTime) (h : before s e = true) :
    generateQuarters s e = firstSeen (quarterTrace s e) ∧
    1 ≤ (generateQuarters s e).length ∧
    (generateQuarters s e).Nodup := by
  have h1 : generateQuarters s e = firstSeen (quarterTrace s e) := by
    unfold generateQuarters firstSeen
    simpa using genQ_eq_firstSeenAux s e []
  refine ⟨h1, ?_, ?_⟩
  · rw [h1]
    have h2 : quarterTrace s e =
        quarterLabel s :: quarterTrace (addDate s 0 1 0) e := by
      rw [quarterTrace, dif_pos h]
    rw [h2]
    unfold firstSeen firstSeenAux
    rw [if_neg (by simp)]
    simp
  · rw [h1]
    exact firstSeenAux_nodup _ _

theorem quarter_axis_first_seen_witness :
    before ⟨2025, 1, 1⟩ ⟨2025, 2, 1⟩ = true ∧
    (generateQuarters ⟨2025, 1, 1⟩ ⟨2025, 2, 1⟩ =
        firstSeen (quarterTrace ⟨2025, 1, 1⟩ ⟨2025, 2, 1⟩) ∧
      1 ≤ (generateQuarters ⟨2025, 1, 1⟩ ⟨2025, 2, 1⟩).length ∧
      (generateQuarters ⟨2025, 1, 1⟩ ⟨2025, 2, 1⟩).Nodup) :=
  ⟨by decide, quarter_axis_first_seen ⟨2025, 1, 1⟩ ⟨2025, 2, 1⟩ (by decide)⟩

/-- Whether a generation result is a success. -/
def isOkEvents : Except String (List RenderEvent) → Bool
  | Except.ok _ => true
  | Except.error _ => false

/-- A fixed "current time" used where Go calls `time.Now()`. -/
def nowFixed : GoTime := ⟨2025, 3, 15⟩

/-- Input collections with no issues at all. -/
def dataEmpty : AggregatedData := ⟨[], []⟩

/-- Roadmap-format options carrying an unrecognized view name. -/
def optsBadView : Options :=
  ⟨"roadmap", "", false, "", "", "", "bogus", false⟩

theorem generate_roadmap_eq (now : GoTime) (data : AggregatedData)
    (o : Options) (ho : o.Format = "roadmap") :
    Generate now data o = Except.ok ([RenderEvent.header] ++
      generateRoadmapFormat now data o ++
      (if o.IncludeMetadata then [RenderEvent.footer] else [])) := by
  unfold Generate
  rw [ho]
  exact rfl

/-- C2 fails on the code: a roadmap render request with an unrecognized
view name succeeds (the view switch falls back to the timeline view); only
an unrecognized format name is an error in `Generate`. -/
theorem roadmap_view_fallback_counterexample :
    optsBadView.Format = "roadmap" ∧
    optsBadView.RoadmapView ∉ ["timeline", "strategic", "release", "epicgantt"] ∧
    isOkEvents (Generate nowFixed dataEmpty optsBadView) = true := by
  refine ⟨rfl, by decide, ?_⟩
  rw [generate_roadmap_eq nowFixed dataEmpty optsBadView rfl]
  rfl

/-- C2 (amended): in the roadmap format an unrecognized view name is not an
error — generation succeeds and renders exactly what the timeline view
renders; the named `unsupported format` error exists only for unrecognized
format names. -/
theorem roadmap_view_fallback (now : GoTime) (data : AggregatedData)
    (opts : Options) (hf : opts.Format = "roadmap")
    (hv : opts.RoadmapView ∉ ["timeline", "strategic", "release", "epicgantt"]) :
    Generate now data opts =
      Generate now data { opts with RoadmapView := "timeline" } ∧
    isOkEvents (Generate now data opts) = true := by
  simp only [List.mem_cons, List.mem_singleton, not_or] at hv
  obtain ⟨h1, h2, h3, h4, -⟩ := hv
  have hbody : generateRoadmapFormat now data opts =
      generateRoadmapFormat now data { opts with RoadmapView := "timeline" } := by
    unfold generateRoadmapFormat
    simp only [if_neg h1, if_neg h2, if_neg h3, if_neg h4]
    simp [generateTimelineView]
  constructor
  · rw [generate_roadmap_eq now data opts hf,
      generate_roadmap_eq now data { opts with RoadmapView := "timeline" } hf,
      hbody]
  · rw [generate_roadmap_eq now data opts hf]
    rfl

theorem roadmap_view_fallback_witness :
    optsBadView.Format = "roadmap" ∧
    optsBadView.RoadmapView ∉ ["timeline", "strategic", "release", "epicgantt"] ∧
    (Generate nowFixed dataEmpty optsBadView =
        Generate nowFixed dataEmpty { optsBadView with RoadmapView := "timeline" } ∧
      isOkEvents (Generate nowFixed dataEmpty optsBadView) = true) :=
  ⟨rfl, by decide,
    roadmap_view_fallback nowFixed dataEmpty optsBadView rfl (by decide)⟩

/-- Counterexample data: a single Epic-typed Jira issue with no children
and no other issues. -/
def epicOnlyIssue : JiraIssue :=
  ⟨"PROJ-1", "Epic", "Epic One", "Open", "", "", ⟨2025, 1, 1⟩,
    ⟨2025, 1, 2⟩, none, none, "", "", "", "", ""⟩

/-- Aggregated data holding only `epicOnlyIssue`. -/
def epicOnlyData : AggregatedData := ⟨[epicOnlyIssue], []⟩

/-- Options selecting the epic-Gantt view. -/
def epicOpts : Options := ⟨"roadmap", "", false, "", "", "", "epicgantt", false⟩

/-- The axis used in the epic-Gantt counterexample. -/
def epicAxis : List String := ["Q1 2025"]

/-- C4 fails on the code: an Epic-typed issue with zero associated items
produces no group header row — the render loop skips empty epics — while
the fallback "No Epic" header row is rendered. -/
theorem epic_gantt_zero_item_epic_skipped :
    epicOnlyIssue.IssueType = "Epic" ∧
    RenderEvent.epicHeader epicOnlyIssue.Summary ∉
      generateEpicGanttView nowFixed epicOnlyData epicAxis epicOpts ∧
    RenderEvent.epicHeader "Issues without Epic" ∈
      generateEpicGanttView nowFixed epicOnlyData epicAxis epicOpts := by decide

theorem epicFold_mem (epicMap : List (String × List RoadmapItem))
    (names : List (String × String)) (keys : List String)
    (acc : List RenderEvent) (key : String) (hkey : key ∈ keys)
    (hcond : ¬((lookupGroup epicMap key).isEmpty = true ∧ key ≠ "No Epic")) :
    RenderEvent.epicHeader (lookupStr names key) ∈
      keys.foldr (fun epicKey a =>
        if (lookupGroup epicMap epicKey).isEmpty && epicKey ≠ "No Epic" then a
        else RenderEvent.epicHeader (lookupStr names epicKey) ::
          ((lookupGroup epicMap epicKey).map RenderEvent.itemRow ++ a)) acc := by
  induction keys with
  | nil => simp at hkey
  | cons k rest ih =>
    simp only [List.foldr_cons]
    rcases List.mem_cons.mp hkey with rfl | hmem
    · rw [if_neg (by simpa [Bool.and_eq_true] using hcond)]
      exact List.mem_cons_self _ _
    · by_cases hc : ((lookupGroup epicMap k).isEmpty &&
          (decide ¬(k = "No Epic"))) = true
      · rw [if_pos hc]
        exact ih hmem
      · rw [if_neg hc]
        exact List.mem_cons_of_mem _ (List.mem_append_right _ (ih hmem))

theorem lookupStr_setAssocStr_self (l : List (String × String)) (k v : String) :
    lookupStr (setAssocStr l k v) k = v := by
  induction l with
  | nil => simp [setAssocStr, lookupStr]
  | cons p rest ih =>
    obtain ⟨k', v'⟩ := p
    by_cases h : k' = k
    · simp [setAssocStr, lookupStr, h]
    · simp [setAssocStr, lookupStr, h, ih]

/-- C4 (amended): the epic-Gantt view always renders the fallback
"No Epic" group header row, and renders a group header row for every
registered epic that has at least one associated item; an epic with zero
associated items is skipped (see `epic_gantt_zero_item_epic_skipped`). -/
theorem epic_gantt_headers (now : GoTime) (data : AggregatedData)
    (quarters : List String) (opts : Options)
    (key : String) (hkey : key ∈ allEpicsList data)
    (hne : lookupGroup (epicMapOf data) key ≠ []) :
    RenderEvent.epicHeader "Issues without Epic" ∈
      generateEpicGanttView now data quarters opts ∧
    RenderEvent.epicHeader (lookupStr (epicNames data) key) ∈
      generateEpicGanttView now data quarters opts := by
  unfold generateEpicGanttView
  constructor
  · rw [show "Issues without Epic" =
      lookupStr (epicNames data) "No Epic" from
      (lookupStr_setAssocStr_self _ _ _).symm]
    simp only [List.cons_append, List.nil_append, List.mem_cons,
      List.mem_append]
    refine Or.inr (Or.inl (Or.inl ?_))
    exact epicFold_mem (epicMapOf data) (epicNames data) (allEpicsList data)
      [] "No Epic" (by simp [allEpicsList]) (by simp)
  · simp only [List.cons_append, List.nil_append, List.mem_cons,
      List.mem_append]
    refine Or.inr (Or.inl (Or.inl ?_))
    refine epicFold_mem (epicMapOf data) (epicNames data) (allEpicsList data)
      [] key hkey ?_
    rintro ⟨hemp, -⟩
    exact hne (by simpa using hemp)

/-- Witness data: the epic plus one child story linked to it. -/
def epicChildIssue : JiraIssue :=
  ⟨"PROJ-2", "Story", "Child story", "Open", "", "PROJ-1", ⟨2025, 1, 3⟩,
    ⟨2025, 1, 4⟩, some ⟨2025, 1, 5⟩, some ⟨2025, 2, 5⟩, "", "", "", "", ""⟩

/-- Aggregated data with one epic and one child linked to it. -/
def epicChildData : AggregatedData := ⟨[epicOnlyIssue, epicChildIssue], []⟩

theorem epic_gantt_headers_witness :
    "PROJ-1" ∈ allEpicsList epicChildData ∧
    lookupGroup (epicMapOf epicChildData) "PROJ-1" ≠ [] ∧
    (RenderEvent.epicHeader "Issues without Epic" ∈
        generateEpicGanttView nowFixed epicChildData epicAxis epicOpts ∧
      RenderEvent.epicHeader (lookupStr (epicNames epicChildData) "PROJ-1") ∈
        generateEpicGanttView nowFixed epicChildData epicAxis epicOpts) :=
  ⟨by decide, by decide,
    epic_gantt_headers nowFixed epicChildData epicAxis epicOpts "PROJ-1"
      (by decide) (by decide)⟩

theorem addDate_month_step (y m : Int) (h1 : 1 ≤ m) (h2 : m ≤ 11) :
    addDate ⟨y, m, 1⟩ 0 1 0 = ⟨y, m + 1, 1⟩ := by
  rw [addDate_mk, show y + 0 = y from by ring]
  exact mkDate_id y (m + 1) 1 (by omega) (by omega) (by norm_num)
    (le_trans (by norm_num) (daysInMonth_bounds y (m + 1)).1)

theorem addDate_year_step (y : Int) :
    addDate ⟨y, 12, 1⟩ 0 1 0 = ⟨y + 1, 1, 1⟩ := by
  rw [addDate_mk, show y + 0 = y from by ring]
  unfold mkDate
  rw [if_pos (by norm_num)]
  have hn : normYM y (12 + 1) = (y + 1, 1) := by
    simp only [normYM, Prod.mk.injEq]
    omega
  rw [hn, fixDayUp]
  have hd : (1 : Int) + 0 ≤ daysInMonth (y + 1, 1).1 (y + 1, 1).2 := by
    have := daysInMonth_bounds (y + 1) 1
    show (1 : Int) + 0 ≤ daysInMonth (y + 1) 1
    omega
  rw [dif_pos hd]
  rfl

theorem generateQuarters_2025 :
    generateQuarters ⟨2025, 1, 1⟩ ⟨2026, 1, 1⟩ =
      ["Q1 2025", "Q2 2025", "Q3 2025", "Q4 2025"] := by
  have s1 := addDate_month_step 2025 1 (by norm_num) (by norm_num)
  have s2 := addDate_month_step 2025 2 (by norm_num) (by norm_num)
  have s3 := addDate_month_step 2025 3 (by norm_num) (by norm_num)
  have s4 := addDate_month_step 2025 4 (by norm_num) (by norm_num)
  have s5 := addDate_month_step 2025 5 (by norm_num) (by norm_num)
  have s6 := addDate_month_step 2025 6 (by norm_num) (by norm_num)
  have s7 := addDate_month_step 2025 7 (by norm_num) (by norm_num)
  have s8 := addDate_month_step 2025 8 (by norm_num) (by norm_num)
  have s9 := addDate_month_step 2025 9 (by norm_num) (by norm_num)
  have s10 := addDate_month_step 2025 10 (by norm_num) (by norm_num)
  have s11 := addDate_month_step 2025 11 (by norm_num) (by norm_num)
  have s12 := addDate_year_step 2025
  norm_num at s1 s2 s3 s4 s5 s6 s7 s8 s9 s10 s11 s12
  have t1 : genQ ⟨2025, 1, 1⟩ ⟨2026, 1, 1⟩ [] =
      genQ ⟨2025, 2, 1⟩ ⟨2026, 1, 1⟩ ["Q1 2025"] := by
    rw [genQ.eq_def, dif_pos (by decide), s1]
    congr 1
  have t2 : genQ ⟨2025, 2, 1⟩ ⟨2026, 1, 1⟩ ["Q1 2025"] =
      genQ ⟨2025, 3, 1⟩ ⟨2026, 1, 1⟩ ["Q1 2025"] := by
    rw [genQ.eq_def, dif_pos (by decide), s2]
    congr 1
  have t3 : genQ ⟨2025, 3, 1⟩ ⟨2026, 1, 1⟩ ["Q1 2025"] =
      genQ ⟨2025, 4, 1⟩ ⟨2026, 1, 1⟩ ["Q1 2025"] := by
    rw [genQ.eq_def, dif_pos (by decide), s3]
    congr 1
  have t4 : genQ ⟨2025, 4, 1⟩ ⟨2026, 1, 1⟩ ["Q1 2025"] =
      genQ ⟨2025, 5, 1⟩ ⟨2026, 1, 1⟩ ["Q1 2025", "Q2 2025"] := by
    rw [genQ.eq_def, dif_pos (by decide), s4]
    congr 1
  have t5 : genQ ⟨2025, 5, 1⟩ ⟨2026, 1, 1⟩ ["Q1 2025", "Q2 2025"] =
      genQ ⟨2025, 6, 1⟩ ⟨2026, 1, 1⟩ ["Q1 2025", "Q2 2025"] := by
    rw [genQ.eq_def, dif_pos (by decide), s5]
    congr 1
  have t6 : genQ ⟨2025, 6, 1⟩ ⟨2026, 1, 1⟩ ["Q1 2025", "Q2 2025"] =
      genQ ⟨2025, 7, 1⟩ ⟨2026, 1, 1⟩ ["Q1 2025", "Q2 2025"] := by
    rw [genQ.eq_def, dif_pos (by decide), s6]
    congr 1
  have t7 : genQ ⟨2025, 7, 1⟩ ⟨2026, 1, 1⟩ ["Q1 2025", "Q2 2025"] =
      genQ ⟨2025, 8, 1⟩ ⟨2026, 1, 1⟩ ["Q1 2025", "Q2 2025", "Q3 2025"] := by
    rw [genQ.eq_def, dif_pos (by decide), s7]
    congr 1
  have t8 : genQ ⟨2025, 8, 1⟩ ⟨2026, 1, 1⟩ ["Q1 2025", "Q2 2025", "Q3 2025"] =
      genQ ⟨2025, 9, 1⟩ ⟨2026, 1, 1⟩ ["Q1 2025", "Q2 2025", "Q3 2025"] := by
    rw [genQ.eq_def, dif_pos (by decide), s8]
    congr 1
  have t9 : genQ ⟨2025, 9, 1⟩ ⟨2026, 1, 1⟩ ["Q1 2025", "Q2 2025", "Q3 2025"] =
      genQ ⟨2025, 10, 1⟩ ⟨2026, 1, 1⟩ ["Q1 2025", "Q2 2025", "Q3 2025"] := by
    rw [genQ.eq_def, dif_pos (by decide), s9]
    congr 1
  have t10 : genQ ⟨2025, 10, 1⟩ ⟨2026, 1, 1⟩
        ["Q1 2025", "Q2 2025", "Q3 2025"] =
      genQ ⟨2025, 11, 1⟩ ⟨2026, 1, 1⟩
        ["Q1 2025", "Q2 2025", "Q3 2025", "Q4 2025"] := by
    rw [genQ.eq_def, dif_pos (by decide), s10]
    congr 1
  have t11 : genQ ⟨2025, 11, 1⟩ ⟨2026, 1, 1⟩
        ["Q1 2025", "Q2 2025", "Q3 2025", "Q4 2025"] =
      genQ ⟨2025, 12, 1⟩ ⟨2026, 1, 1⟩
        ["Q1 2025", "Q2 2025", "Q3 2025", "Q4 2025"] := by
    rw [genQ.eq_def, dif_pos (by decide), s11]
    congr 1
  have t12 : genQ ⟨2025, 12, 1⟩ ⟨2026, 1, 1⟩
        ["Q1 2025", "Q2 2025", "Q3 2025", "Q4 2025"] =
      genQ ⟨2026, 1, 1⟩ ⟨2026, 1, 1⟩
        ["Q1 2025", "Q2 2025", "Q3 2025", "Q4 2025"] := by
    rw [genQ.eq_def, dif_pos (by decide), s12]
    congr 1
  have t13 : genQ ⟨2026, 1, 1⟩ ⟨2026, 1, 1⟩
        ["Q1 2025", "Q2 2025", "Q3 2025", "Q4 2025"] =
      ["Q1 2025", "Q2 2025", "Q3 2025", "Q4 2025"] := by
    rw [genQ.eq_def, dif_neg (by decide)]
  unfold generateQuarters
  rw [t1, t2, t3, t4, t5, t6, t7, t8, t9, t10, t11, t12, t13]

/-- C8: parsing `"Q1-Q4 2025"` yields the range 2025-01-01 to 2026-01-01
(whatever the current time is), and the quarter axis over that range is
exactly Q1..Q4 2025 in order. -/
theorem timeframe_q1_q4_2025 (now : GoTime) :
    parseTimeframe now "Q1-Q4 2025" = (⟨2025, 1, 1⟩, ⟨2026, 1, 1⟩) ∧
    generateQuarters ⟨2025, 1, 1⟩ ⟨2026, 1, 1⟩ =
      ["Q1 2025", "Q2 2025", "Q3 2025", "Q4 2025"] := by
  refine ⟨?_, generateQuarters_2025⟩
  have hp : parseTimeframe now "Q1-Q4 2025" =
      (mkDate 2025 1 1, addDate (mkDate 2025 12 1) 0 1 0) := rfl
  have h1 : mkDate 2025 1 1 = ⟨2025, 1, 1⟩ :=
    mkDate_id 2025 1 1 (by norm_num) (by norm_num) (by norm_num) (by decide)
  have h2 : mkDate 2025 12 1 = ⟨2025, 12, 1⟩ :=
    mkDate_id 2025 12 1 (by norm_num) (by norm_num) (by norm_num) (by decide)
  have h3 := addDate_year_step 2025
  norm_num at h3
  rw [hp, h1, h2, h3]
